import Mathlib

/-!
Shallow embedding of `src/OptParser/OptParser.hpp` (class `optp::OptParser`).

The embedding covers the data model (`OptPar`, `OptRes`), the token
classifier (the anchored ECMAScript pattern
`(-([a-zA-Z])(.+)?)|(--([a-zA-Z_-]+)=?(.+)?)` used with `std::regex_match`),
option registration (`OptParser::addOption`), the parse state machine
(`OptParser::parse`), the query surface (`OptParser::gotOption`,
`OptParser::optionValue`, `OptParser::getArgs`) and help rendering
(`operator<<` together with `OptParser::optName`).

Conventions of the embedding:
* C++ `std::string` is modelled as Lean `String` (a list of characters).
* Fallible operations (`throw`) are modelled with `Except`.
* Each diagnostic line written to `std::cerr` during a parse is recorded as
  one `Warning` value carrying the data interpolated into the message.
* `parse(argc, argv)` iterates from index 1, so it processes the token list
  `argv[1..argc)`; the model takes that token list directly.
-/

namespace OptP

/-- Embeds `enum class OptType`. -/
inductive OptType where
  | value
  | trigger
  deriving DecidableEq

/-- Embeds `struct OptPar`, one registered option descriptor. -/
structure OptPar where
  shortName : String
  longName : String
  defaultVal : String
  helpMessage : String
  type : OptType
  optional : Bool
  deriving DecidableEq

instance : Inhabited OptPar := ⟨⟨"", "", "", "", OptType.trigger, false⟩⟩

/-- Embeds `struct OptRes`; `std::vector::resize` value-initializes entries
to `value = ""`, `present = false`. -/
structure OptRes where
  value : String
  present : Bool
  deriving DecidableEq

instance : Inhabited OptRes := ⟨⟨"", false⟩⟩

/-- Character class `[a-zA-Z_-]` of the long-name capture group of
`optRegex` (ASCII letters, underscore, hyphen). -/
def isNameChar (c : Char) : Bool :=
  c.isAlpha || c == '_' || c == '-'

/-- Characters matched by `.` in the ECMAScript pattern: every character
except the four line terminators. -/
def isDotChar (c : Char) : Bool :=
  !(c == '\n' || c == '\r' || c == '\u2028' || c == '\u2029')

/-- Outcome of matching one raw token against `optRegex_` with
`std::regex_match`, as read off by `parse`: `shortOpt` records `sm[2]` and
`sm[3]`, `longOpt` records `sm[5]` and `sm[6]`, and `plain` is a failed
match. -/
inductive Token where
  | shortOpt (name : String) (inl : Option String)
  | longOpt (name : String) (inl : Option String)
  | plain
  deriving DecidableEq

/-- Result of `regex_match(tok, sm, optRegex_)` for the anchored pattern
`(-([a-zA-Z])(.+)?)|(--([a-zA-Z_-]+)=?(.+)?)`, computed by ECMAScript
ordered-alternation, greedy, backtracking semantics.  For the long
alternative the name group takes the maximal run of name characters; the
optional `=` is consumed when it directly follows the name; the optional
`(.+)?` group must then cover the whole remainder, which it can do exactly
when that remainder is nonempty and free of line terminators (backtracking
to a shorter name can never repair a failure, since dropped name characters
are themselves dot characters). -/
def classifyChars : List Char → Token
  | '-' :: c :: rest =>
    if c.isAlpha then
      if rest = [] then Token.shortOpt (String.mk [c]) none
      else if rest.all isDotChar then Token.shortOpt (String.mk [c]) (some (String.mk rest))
      else Token.plain
    else if c = '-' then
      if rest.takeWhile isNameChar = [] then Token.plain
      else
        match rest.dropWhile isNameChar with
        | [] => Token.longOpt (String.mk (rest.takeWhile isNameChar)) none
        | h :: t =>
          if h = '=' then
            if t = [] then Token.longOpt (String.mk (rest.takeWhile isNameChar)) none
            else if t.all isDotChar then
              Token.longOpt (String.mk (rest.takeWhile isNameChar)) (some (String.mk t))
            else Token.plain
          else if (h :: t).all isDotChar then
            Token.longOpt (String.mk (rest.takeWhile isNameChar)) (some (String.mk (h :: t)))
          else Token.plain
    else Token.plain
  | _ => Token.plain

/-- Token classification of a raw argument string. -/
def classify (s : String) : Token :=
  classifyChars s.data

/-- Collision test of `addOption`: the lambda passed to `std::find_if`. -/
def conflicts (par p : OptPar) : Bool :=
  (par.shortName == p.shortName && !(par.shortName == "")) ||
    (par.longName == p.longName && !(par.longName == ""))

/-- Name of the conflicting option as composed inside `addOption` right
before the `std::logic_error` throw: `-short`, then a slash whenever the
accumulated text is nonempty, then `--long`. -/
def conflictName (p : OptPar) : String :=
  let o : String := ""
  let o := if p.shortName == "" then o else o ++ "-" ++ p.shortName
  let o := if o == "" then o else o ++ "/"
  if p.longName == "" then o else o ++ "--" ++ p.longName

/-- Embeds `OptParser::addOption`; the `std::logic_error` throw is modelled
as `Except.error` carrying the exception message. -/
def addOption (opts : List OptPar) (par : OptPar) : Except String (List OptPar) :=
  match opts.find? (conflicts par) with
  | some p => Except.error ("duplicate option " ++ conflictName p)
  | none => Except.ok (opts ++ [par])

/-- A sequence of `addOption` calls, stopping at the first failure. -/
def registerAll (opts : List OptPar) : List OptPar → Except String (List OptPar)
  | [] => Except.ok opts
  | p :: ps =>
    match addOption opts p with
    | Except.ok opts2 => registerAll opts2 ps
    | Except.error e => Except.error e

/-- Index of the first registry entry satisfying a predicate: the
`std::find_if` plus iterator-subtraction idiom used throughout the source. -/
def findOpt (p : OptPar → Bool) : List OptPar → Option Nat
  | [] => none
  | o :: os => if p o then some 0 else (findOpt p os).map (· + 1)

/-- Embeds `OptParser::optIndex`; `none` models the return value `-1`. -/
def optIndex (opts : List OptPar) (name : String) : Option Nat :=
  findOpt (fun p => p.shortName == name || p.longName == name) opts

/-- The member fields `opt_`, `result_`, `arg_` of class `OptParser`. -/
structure OptParser where
  opt_ : List OptPar
  result_ : List OptRes
  arg_ : List String
  deriving DecidableEq

/-- One diagnostic line written to `std::cerr` during `parse`, recording
which message was emitted and the data interpolated into it. -/
inductive Warning where
  | expectedValueGotOption (opt : OptPar) (tok : String)
  | unknownOption (tok : String)
  | expectedValue (opt : OptPar)
  | missingMandatory (opt : OptPar)
  deriving DecidableEq

/-- The state local to `OptParser::parse`: the result vector and positional
list being built, the diagnostics emitted so far, the running `isCorrect`
flag and the pending deferred-value index (`expectVal`, with `-1` modelled
as `none`). -/
structure ParseState where
  result_ : List OptRes
  arg_ : List String
  warnings : List Warning
  isCorrect : Bool
  expectVal : Option Nat
  deriving DecidableEq

/-- In-place update `l[i] = f l[i]` of the result vector. -/
def modifyAt : List OptRes → Nat → (OptRes → OptRes) → List OptRes
  | [], _, _ => []
  | r :: rs, 0, f => f r :: rs
  | r :: rs, n + 1, f => r :: modifyAt rs n f

/-- First step of the option branch of `parse`: an already pending value
expectation is abandoned, with a warning and a failed-parse mark. -/
def dropExpect (opts : List OptPar) (tok : String) (st : ParseState) : ParseState :=
  match st.expectVal with
  | some e =>
    { st with
      warnings := st.warnings ++ [Warning.expectedValueGotOption (opts.getD e default) tok]
      isCorrect := false
      expectVal := none }
  | none => st

/-- Effect of a resolved option at registry index `i`: mark it present;
for a value option either store the inline value or start expecting a
deferred one. -/
def bindOpt (opts : List OptPar) (st : ParseState) (i : Nat) (inl : Option String) :
    ParseState :=
  let st1 := { st with result_ := modifyAt st.result_ i (fun r => { r with present := true }) }
  match (opts.getD i default).type, inl with
  | OptType.value, some v =>
    { st1 with result_ := modifyAt st1.result_ i (fun r => { r with value := v }) }
  | OptType.value, none => { st1 with expectVal := some i }
  | OptType.trigger, _ => st1

/-- Shared body of the short-option and long-option branches of `parse`
(the two branches of the source differ only in the member compared by the
lookup lambda): resolve the name, then bind or warn. -/
def lookupBranch (opts : List OptPar) (st : ParseState) (tok : String)
    (sel : OptPar → Bool) (inl : Option String) : ParseState :=
  let st1 := dropExpect opts tok st
  match findOpt sel opts with
  | some i => bindOpt opts st1 i inl
  | none => { st1 with warnings := st1.warnings ++ [Warning.unknownOption tok] }

/-- One iteration of the `while (!arg.empty())` loop of `parse`. -/
def parseToken (opts : List OptPar) (st : ParseState) (tok : String) : ParseState :=
  match classify tok with
  | Token.shortOpt n inl => lookupBranch opts st tok (fun p => p.shortName == n) inl
  | Token.longOpt n inl => lookupBranch opts st tok (fun p => p.longName == n) inl
  | Token.plain =>
    match st.expectVal with
    | some e =>
      { st with
        result_ := modifyAt st.result_ e (fun r => { r with value := tok })
        expectVal := none }
    | none => { st with arg_ := st.arg_ ++ [tok] }

/-- The final loop of `parse`: one warning per non-optional option not
marked present, in registry order (the result vector has the same length as
the registry throughout a parse). -/
def mandatoryWarnings : List OptPar → List OptRes → List Warning
  | [], _ => []
  | _ :: _, [] => []
  | o :: os, r :: rs =>
    (if !o.optional && !r.present then [Warning.missingMandatory o] else []) ++
      mandatoryWarnings os rs

/-- The reset performed at the top of `parse`: `result_` is cleared, resized
to the registry size (all entries `present = false`) and each `value` is set
to the option default. -/
def resetResults (opts : List OptPar) : List OptRes :=
  opts.map fun o => { value := o.defaultVal, present := false }

/-- The whole body of `OptParser::parse` as a function of the registry and
the token stream: reset, the token loop, the trailing dangling-expectation
check and the mandatory-option sweep. -/
def parseCore (opts : List OptPar) (args : List String) : ParseState :=
  let st0 : ParseState :=
    { result_ := resetResults opts, arg_ := [], warnings := [], isCorrect := true
      expectVal := none }
  let st1 := args.foldl (parseToken opts) st0
  let st2 :=
    match st1.expectVal with
    | some e =>
      { st1 with
        warnings := st1.warnings ++ [Warning.expectedValue (opts.getD e default)]
        isCorrect := false
        expectVal := none }
    | none => st1
  let mw := mandatoryWarnings opts st2.result_
  { st2 with warnings := st2.warnings ++ mw, isCorrect := st2.isCorrect && mw.isEmpty }

/-- Embeds `OptParser::parse`: updates the member state and returns the
`isCorrect` flag, together with the diagnostics written to `std::cerr`. -/
def parse (s : OptParser) (args : List String) : OptParser × Bool × List Warning :=
  let st := parseCore s.opt_ args
  ({ s with result_ := st.result_, arg_ := st.arg_ }, st.isCorrect, st.warnings)

/-- The two exception classes thrown by the query surface. -/
inductive QueryError where
  | notParsedYet
  | unknownOptionName (name : String)
  deriving DecidableEq

/-- Embeds `OptParser::gotOption`: `std::runtime_error` when the result
store and the registry differ in size, `std::out_of_range` when the name
resolves to no option, otherwise the presence flag. -/
def gotOption (opts : List OptPar) (results : List OptRes) (name : String) :
    Except QueryError Bool :=
  if results.length ≠ opts.length then Except.error QueryError.notParsedYet
  else
    match optIndex opts name with
    | some i => Except.ok ((results.getD i default).present)
    | none => Except.error (QueryError.unknownOptionName name)

/-- Embeds `OptParser::optionValue` at the default template argument
`T = std::string`, for which `strTo` is the identity: the stored string is
returned unchanged.  Failure conditions are those of `gotOption`. -/
def optionValue (opts : List OptPar) (results : List OptRes) (name : String) :
    Except QueryError String :=
  if results.length ≠ opts.length then Except.error QueryError.notParsedYet
  else
    match optIndex opts name with
    | some i => Except.ok ((results.getD i default).value)
    | none => Except.error (QueryError.unknownOptionName name)

/-- Embeds `OptParser::getArgs`. -/
def getArgs (s : OptParser) : List String :=
  s.arg_

/-- Embeds the static `OptParser::optName` used for diagnostics and help
rendering: `-short`, a slash when both names are present, `--long`, and a
trailing `=` appended only inside the long-name branch of a value option. -/
def optName (o : OptPar) : String :=
  let res : String := ""
  let res :=
    if o.shortName == "" then res
    else res ++ "-" ++ o.shortName ++ (if o.longName == "" then "" else "/")
  let res :=
    if o.longName == "" then res
    else res ++ "--" ++ o.longName ++ (if o.type == OptType.value then "=" else "")
  res

/-- Models `std::setw(20)`: right-justify in a field of width 20 by padding
with spaces on the left (never truncating). -/
def leftPad (w : Nat) (s : String) : String :=
  String.mk (List.replicate (w - s.length) ' ') ++ s

/-- Embeds `operator<<(std::ostream, OptParser)`: one line per registered
option in registration order. -/
def render (opts : List OptPar) : String :=
  opts.foldl
    (fun acc o =>
      acc ++ leftPad 20 (optName o) ++ ": " ++ o.helpMessage ++
        (if o.defaultVal = "" then "" else " (default: " ++ o.defaultVal ++ ")") ++ "\n")
    ""

/-- The diagnostics that set `isCorrect = false` in `parse`: every warning
except the unknown-option one (whose branch leaves `isCorrect` untouched). -/
def fatalWarning : Warning → Bool
  | Warning.unknownOption _ => false
  | _ => true

/-! Auxiliary lemmas about the list helpers of the embedding. -/

theorem modifyAt_length (l : List OptRes) (i : Nat) (f : OptRes → OptRes) :
    (modifyAt l i f).length = l.length := by
  induction l generalizing i with
  | nil => rfl
  | cons r rs ih =>
    cases i with
    | zero => rfl
    | succ n => simpa [modifyAt] using ih n

theorem modifyAt_append (l₁ l₂ : List OptRes) (k : Nat) (f : OptRes → OptRes) :
    modifyAt (l₁ ++ l₂) (l₁.length + k) f = l₁ ++ modifyAt l₂ k f := by
  induction l₁ with
  | nil => simp
  | cons r rs ih => simpa [modifyAt, Nat.succ_add] using ih

theorem modifyAt_append_mid (l₁ : List OptRes) (a : OptRes) (l₂ : List OptRes)
    (f : OptRes → OptRes) :
    modifyAt (l₁ ++ a :: l₂) l₁.length f = l₁ ++ f a :: l₂ := by
  simpa [modifyAt] using modifyAt_append l₁ (a :: l₂) 0 f

theorem modifyAt_getElem_ne (l : List OptRes) (i j : Nat) (f : OptRes → OptRes)
    (h : i ≠ j) : (modifyAt l j f)[i]? = l[i]? := by
  induction l generalizing i j with
  | nil => rfl
  | cons r rs ih =>
    cases j with
    | zero =>
      cases i with
      | zero => exact absurd rfl h
      | succ m => simp [modifyAt]
    | succ n =>
      cases i with
      | zero => simp [modifyAt]
      | succ m => simpa [modifyAt] using ih m n (fun hmn => h (by omega))

theorem modifyAt_getD_ne (l : List OptRes) (i j : Nat) (f : OptRes → OptRes)
    (d : OptRes) (h : i ≠ j) : (modifyAt l j f).getD i d = l.getD i d := by
  simp [List.getD, modifyAt_getElem_ne _ _ _ _ h]

theorem getD_append_mid {α : Type} (l₁ : List α) (a : α) (l₂ : List α) (d : α) :
    (l₁ ++ a :: l₂).getD l₁.length d = a := by
  induction l₁ with
  | nil => rfl
  | cons b bs ih => simpa using ih

theorem findOpt_eq_none (p : OptPar → Bool) (l : List OptPar)
    (h : ∀ a ∈ l, p a = false) : findOpt p l = none := by
  induction l with
  | nil => rfl
  | cons a as ih =>
    have ha : p a = false := h a (by simp)
    have ih2 := ih (fun b hb => h b (by simp [hb]))
    simp [findOpt, ha, ih2]

theorem findOpt_append_of_none (p : OptPar → Bool) (l₁ l₂ : List OptPar)
    (h : ∀ a ∈ l₁, p a = false) :
    findOpt p (l₁ ++ l₂) = (findOpt p l₂).map (· + l₁.length) := by
  induction l₁ with
  | nil => cases hf : findOpt p l₂ <;> simp [hf]
  | cons a as ih =>
    have ha : p a = false := h a (by simp)
    have ih2 := ih (fun b hb => h b (by simp [hb]))
    cases hf : findOpt p l₂ with
    | none => simp [findOpt, ha, ih2, hf]
    | some k =>
      simp [findOpt, ha, ih2, hf]
      omega

theorem findOpt_append_mid (p : OptPar → Bool) (l₁ : List OptPar) (a : OptPar)
    (l₂ : List OptPar) (h : ∀ q ∈ l₁, p q = false) (ha : p a = true) :
    findOpt p (l₁ ++ a :: l₂) = some l₁.length := by
  rw [findOpt_append_of_none p l₁ (a :: l₂) h]
  simp [findOpt, ha]

theorem findOpt_append_mid_ne (p : OptPar → Bool) (l₁ : List OptPar) (a : OptPar)
    (l₂ : List OptPar) (ha : p a = false) :
    ∀ j, findOpt p (l₁ ++ a :: l₂) = some j → j ≠ l₁.length := by
  induction l₁ with
  | nil =>
    intro j hj
    simp only [List.nil_append, findOpt, ha] at hj
    rcases hf : findOpt p l₂ with _ | k <;> rw [hf] at hj <;> simp at hj
    simp only [List.length_nil]
    omega
  | cons b bs ih =>
    intro j hj
    simp only [List.length_cons]
    by_cases hb : p b = true
    · simp [findOpt, hb] at hj
      omega
    · rw [Bool.not_eq_true] at hb
      simp [findOpt, hb] at hj
      rcases hf : findOpt p (bs ++ a :: l₂) with _ | k <;> rw [hf] at hj <;> simp at hj
      have hk := ih k hf
      omega

theorem find?_append_mid (p : OptPar → Bool) (l₁ : List OptPar) (a : OptPar)
    (l₂ : List OptPar) (h : ∀ q ∈ l₁, p q = false) (ha : p a = true) :
    (l₁ ++ a :: l₂).find? p = some a := by
  induction l₁ with
  | nil => simp [List.find?_cons_of_pos, ha]
  | cons b bs ih =>
    have hb : p b = false := h b (by simp)
    have ih2 := ih (fun q hq => h q (by simp [hq]))
    simp [List.find?_cons_of_neg, hb, ih2]

theorem resetResults_length (opts : List OptPar) :
    (resetResults opts).length = opts.length := by
  simp [resetResults]

theorem mandatoryWarnings_all_optional (os : List OptPar) (rs : List OptRes)
    (h : ∀ o ∈ os, o.optional = true) : mandatoryWarnings os rs = [] := by
  induction os generalizing rs with
  | nil => rfl
  | cons o os ih =>
    cases rs with
    | nil => rfl
    | cons r rs =>
      have ho : o.optional = true := h o (by simp)
      have ih2 := ih rs (fun q hq => h q (by simp [hq]))
      simp [mandatoryWarnings, ho, ih2]

theorem mandatoryWarnings_any_fatal (os : List OptPar) (rs : List OptRes) :
    (mandatoryWarnings os rs).any fatalWarning = !(mandatoryWarnings os rs).isEmpty := by
  induction os generalizing rs with
  | nil => rfl
  | cons o os ih =>
    cases rs with
    | nil => rfl
    | cons r rs =>
      by_cases hc : (!o.optional && !r.present) = true
      · simp [mandatoryWarnings, hc, fatalWarning]
      · rw [Bool.not_eq_true] at hc
        simpa [mandatoryWarnings, hc] using ih rs

/-! Structural facts about one step of the parse loop. -/

theorem dropExpect_result (opts : List OptPar) (tok : String) (st : ParseState) :
    (dropExpect opts tok st).result_ = st.result_ := by
  cases he : st.expectVal <;> simp [dropExpect, he]

theorem dropExpect_arg (opts : List OptPar) (tok : String) (st : ParseState) :
    (dropExpect opts tok st).arg_ = st.arg_ := by
  cases he : st.expectVal <;> simp [dropExpect, he]

theorem bindOpt_warnings (opts : List OptPar) (st : ParseState) (i : Nat)
    (inl : Option String) :
    (bindOpt opts st i inl).warnings = st.warnings ∧
      (bindOpt opts st i inl).isCorrect = st.isCorrect ∧
      (bindOpt opts st i inl).arg_ = st.arg_ := by
  simp only [bindOpt]
  cases (opts.getD i default).type <;> cases inl <;> simp

theorem bindOpt_result_length (opts : List OptPar) (st : ParseState) (i : Nat)
    (inl : Option String) :
    (bindOpt opts st i inl).result_.length = st.result_.length := by
  simp only [bindOpt]
  cases (opts.getD i default).type <;> cases inl <;> simp [modifyAt_length]

theorem bindOpt_getD_ne (opts : List OptPar) (st : ParseState) (i j : Nat)
    (inl : Option String) (d : OptRes) (h : i ≠ j) :
    (bindOpt opts st j inl).result_.getD i d = st.result_.getD i d := by
  simp only [bindOpt]
  cases (opts.getD j default).type <;> cases inl <;>
    simp [modifyAt_getElem_ne _ _ _ _ h]

theorem parseToken_result_length (opts : List OptPar) (st : ParseState) (tok : String) :
    (parseToken opts st tok).result_.length = st.result_.length := by
  cases hc : classify tok with
  | shortOpt n inl =>
    simp only [parseToken, hc, lookupBranch]
    cases hf : findOpt (fun p => p.shortName == n) opts <;>
      simp [bindOpt_result_length, dropExpect_result]
  | longOpt n inl =>
    simp only [parseToken, hc, lookupBranch]
    cases hf : findOpt (fun p => p.longName == n) opts <;>
      simp [bindOpt_result_length, dropExpect_result]
  | plain =>
    cases he : st.expectVal <;> simp [parseToken, hc, he, modifyAt_length]

theorem foldl_parseToken_result_length (opts : List OptPar) (args : List String)
    (st : ParseState) :
    (args.foldl (parseToken opts) st).result_.length = st.result_.length := by
  induction args generalizing st with
  | nil => rfl
  | cons a as ih => simpa [parseToken_result_length] using ih (parseToken opts st a)

theorem parseCore_result_length (opts : List OptPar) (args : List String) :
    (parseCore opts args).result_.length = opts.length := by
  have h := foldl_parseToken_result_length opts args
    { result_ := resetResults opts, arg_ := [], warnings := [], isCorrect := true
      expectVal := none }
  simp only [parseCore]
  cases he :
      (args.foldl (parseToken opts)
        { result_ := resetResults opts, arg_ := [], warnings := [], isCorrect := true
          expectVal := none }).expectVal <;>
    simp [he, h, resetResults_length]

/-! The running flag `isCorrect` is the record of the fatal warnings: it is
`true` exactly while no warning other than an unknown-option one has been
emitted. -/

theorem lookupBranch_inv (opts : List OptPar) (st : ParseState) (tok : String)
    (sel : OptPar → Bool) (inl : Option String)
    (h : st.isCorrect = !(st.warnings.any fatalWarning)) :
    (lookupBranch opts st tok sel inl).isCorrect =
      !((lookupBranch opts st tok sel inl).warnings.any fatalWarning) := by
  have hd : (dropExpect opts tok st).isCorrect =
      !((dropExpect opts tok st).warnings.any fatalWarning) := by
    cases he : st.expectVal with
    | none => simpa [dropExpect, he] using h
    | some e => simp [dropExpect, he, fatalWarning]
  simp only [lookupBranch]
  cases hf : findOpt sel opts with
  | some i =>
    obtain ⟨hw, hic, -⟩ := bindOpt_warnings opts (dropExpect opts tok st) i inl
    simp [hw, hic, hd]
  | none => simp [fatalWarning, hd]

theorem parseToken_inv (opts : List OptPar) (st : ParseState) (tok : String)
    (h : st.isCorrect = !(st.warnings.any fatalWarning)) :
    (parseToken opts st tok).isCorrect =
      !((parseToken opts st tok).warnings.any fatalWarning) := by
  cases hc : classify tok with
  | shortOpt n inl => simpa [parseToken, hc] using lookupBranch_inv opts st tok _ inl h
  | longOpt n inl => simpa [parseToken, hc] using lookupBranch_inv opts st tok _ inl h
  | plain => cases he : st.expectVal <;> simpa [parseToken, hc, he] using h

theorem foldl_parseToken_inv (opts : List OptPar) (args : List String)
    (st : ParseState) (h : st.isCorrect = !(st.warnings.any fatalWarning)) :
    (args.foldl (parseToken opts) st).isCorrect =
      !((args.foldl (parseToken opts) st).warnings.any fatalWarning) := by
  induction args generalizing st with
  | nil => simpa using h
  | cons a as ih =>
    simpa using ih (parseToken opts st a) (parseToken_inv opts st a h)

theorem parseCore_isCorrect (opts : List OptPar) (args : List String) :
    (parseCore opts args).isCorrect =
      !((parseCore opts args).warnings.any fatalWarning) := by
  have h1 := foldl_parseToken_inv opts args
    { result_ := resetResults opts, arg_ := [], warnings := [], isCorrect := true
      expectVal := none } (by simp)
  simp only [parseCore]
  set st1 := args.foldl (parseToken opts)
    { result_ := resetResults opts, arg_ := [], warnings := [], isCorrect := true
      expectVal := none } with hst1
  cases he : st1.expectVal with
  | none =>
    simp only [he]
    rw [h1]
    cases hall : st1.warnings.any fatalWarning <;>
      simp [hall, mandatoryWarnings_any_fatal]
  | some e =>
    simp only [he]
    simp [fatalWarning, mandatoryWarnings_any_fatal]

theorem registerAll_ok (pars : List OptPar) (acc : List OptPar)
    (hacc : ∀ q ∈ pars, ∀ p ∈ acc, conflicts q p = false)
    (hp : pars.Pairwise (fun p q => conflicts q p = false)) :
    registerAll acc pars = Except.ok (acc ++ pars) := by
  induction pars generalizing acc with
  | nil => simp [registerAll]
  | cons a as ih =>
    have hfind : acc.find? (conflicts a) = none := by
      rw [List.find?_eq_none]
      intro p hpm
      simp [hacc a (by simp) p hpm]
    rw [List.pairwise_cons] at hp
    have step : addOption acc a = Except.ok (acc ++ [a]) := by simp [addOption, hfind]
    have hacc2 : ∀ q ∈ as, ∀ p ∈ acc ++ [a], conflicts q p = false := by
      intro q hq p hpm
      rcases List.mem_append.mp hpm with h1 | h1
      · exact hacc q (by simp [hq]) p h1
      · simp only [List.mem_singleton] at h1
        subst h1
        exact hp.1 q hq
    have hrec := ih (acc ++ [a]) hacc2 hp.2
    simp [registerAll, step, hrec]

/-! Claims. -/

/-- C3, counterexample: an option descriptor with both names empty is not
rejected by `addOption`; registration silently accepts it, so the claimed
fatal configuration error does not exist in the code. -/
theorem claim3_counterexample :
    addOption []
        { shortName := "", longName := "", defaultVal := "", helpMessage := "h"
          type := OptType.trigger, optional := false } =
      Except.ok
        [{ shortName := "", longName := "", defaultVal := "", helpMessage := "h"
           type := OptType.trigger, optional := false }] := rfl

/-- C3, amended: a spec in which both `shortName` and `longName` are empty is
accepted by `addOption` against any registry and is simply appended; only a
collision of non-empty names is rejected at registration time. -/
theorem claim3_amended (opts : List OptPar) (par : OptPar)
    (hs : par.shortName = "") (hl : par.longName = "") :
    addOption opts par = Except.ok (opts ++ [par]) := by
  have hfind : opts.find? (conflicts par) = none := by
    rw [List.find?_eq_none]
    intro p hp
    simp [conflicts, hs, hl]
  simp [addOption, hfind]

/-- C3, witness for the amended claim at a concrete nonempty registry. -/
theorem claim3_witness :
    addOption
        [{ shortName := "a", longName := "long-a", defaultVal := "", helpMessage := ""
           type := OptType.value, optional := true }]
        { shortName := "", longName := "", defaultVal := "", helpMessage := "h"
          type := OptType.trigger, optional := false } =
      Except.ok
        [{ shortName := "a", longName := "long-a", defaultVal := "", helpMessage := ""
           type := OptType.value, optional := true },
         { shortName := "", longName := "", defaultVal := "", helpMessage := "h"
           type := OptType.trigger, optional := false }] :=
  claim3_amended _ _ rfl rfl

/-- C4: registering options whose non-empty names are pairwise distinct
(each name that is non-empty differs from the same-kind name of every
earlier registration; empty names never collide, so single-name options are
covered) never fails and yields the registry in insertion order; registering
an option whose non-empty short or long name equals that of an already
registered option fails immediately with a duplicate-option error naming the
first conflicting registered option, in the form dash-short, slash,
dash-dash-long when that option has both names. -/
theorem claim4_theorem :
    (∀ pars : List OptPar,
      pars.Pairwise (fun p q =>
        (p.shortName ≠ q.shortName ∨ q.shortName = "") ∧
        (p.longName ≠ q.longName ∨ q.longName = "")) →
      registerAll [] pars = Except.ok pars) ∧
    (∀ (pre : List OptPar) (p : OptPar) (post : List OptPar) (par : OptPar),
      (∀ q ∈ pre, conflicts par q = false) → conflicts par p = true →
      addOption (pre ++ p :: post) par =
        Except.error ("duplicate option " ++ conflictName p)) ∧
    (∀ p : OptPar, p.shortName ≠ "" → p.longName ≠ "" →
      conflictName p = "-" ++ p.shortName ++ "/--" ++ p.longName) := by
  refine ⟨?_, ?_, ?_⟩
  · intro pars hpw
    have hpw2 : pars.Pairwise (fun p q => conflicts q p = false) := by
      refine hpw.imp ?_
      intro p q hpq
      have hs : (q.shortName == p.shortName && !(q.shortName == "")) = false := by
        rcases hpq.1 with h | h
        · simp [beq_eq_false_iff_ne.mpr (Ne.symm h)]
        · simp [h]
      have hl : (q.longName == p.longName && !(q.longName == "")) = false := by
        rcases hpq.2 with h | h
        · simp [beq_eq_false_iff_ne.mpr (Ne.symm h)]
        · simp [h]
      simp [conflicts, hs, hl]
    simpa using registerAll_ok pars [] (by simp) hpw2
  · intro pre p post par hpre hp
    have hfind : (pre ++ p :: post).find? (conflicts par) = some p :=
      find?_append_mid _ pre p post hpre hp
    simp [addOption, hfind]
  · intro p hs hl
    have h1 : (p.shortName == "") = false := beq_eq_false_iff_ne.mpr hs
    have h2 : (p.longName == "") = false := beq_eq_false_iff_ne.mpr hl
    have h3 : (("" ++ "-" ++ p.shortName : String) == "") = false := by
      rw [beq_eq_false_iff_ne]
      intro hcontra
      have hd := congrArg String.data hcontra
      simp [String.data_append] at hd
    simp only [conflictName, h1, h2, h3, Bool.false_eq_true, if_false]
    apply String.ext
    simp [String.data_append]

/-- C4, witness: a concrete successful registration of a both-names option,
a short-only option and a long-only option, and a concrete duplicate
registration producing the formatted error. -/
theorem claim4_witness :
    registerAll []
        [{ shortName := "a", longName := "long-a", defaultVal := "", helpMessage := ""
           type := OptType.value, optional := true },
         { shortName := "v", longName := "", defaultVal := "", helpMessage := ""
           type := OptType.trigger, optional := true },
         { shortName := "", longName := "verbose", defaultVal := "", helpMessage := ""
           type := OptType.trigger, optional := true }] =
      Except.ok
        [{ shortName := "a", longName := "long-a", defaultVal := "", helpMessage := ""
           type := OptType.value, optional := true },
         { shortName := "v", longName := "", defaultVal := "", helpMessage := ""
           type := OptType.trigger, optional := true },
         { shortName := "", longName := "verbose", defaultVal := "", helpMessage := ""
           type := OptType.trigger, optional := true }] ∧
    addOption
        [{ shortName := "a", longName := "long-a", defaultVal := "", helpMessage := ""
           type := OptType.value, optional := true }]
        { shortName := "a", longName := "other", defaultVal := "", helpMessage := ""
          type := OptType.trigger, optional := false } =
      Except.error "duplicate option -a/--long-a" := by
  constructor
  · exact claim4_theorem.1 _ (by decide)
  · have h := claim4_theorem.2.1 []
      { shortName := "a", longName := "long-a", defaultVal := "", helpMessage := ""
        type := OptType.value, optional := true } []
      { shortName := "a", longName := "other", defaultVal := "", helpMessage := ""
        type := OptType.trigger, optional := false } (by simp) (by decide)
    have hn := claim4_theorem.2.2
      { shortName := "a", longName := "long-a", defaultVal := "", helpMessage := ""
        type := OptType.value, optional := true } (by decide) (by decide)
    rw [List.nil_append] at h
    rw [h, hn]
    rfl

/-- C7: the queries `gotOption` and `optionValue` fail with the
not-parsed-yet error whenever the result store and the registry differ in
size, fail with the unknown-option-name error when the name resolves to no
registered option, and otherwise return the recorded presence flag,
respectively the recorded string value, of the resolved option. -/
theorem claim7_theorem (opts : List OptPar) (rs : List OptRes) (name : String) :
    (rs.length ≠ opts.length →
      gotOption opts rs name = Except.error QueryError.notParsedYet ∧
      optionValue opts rs name = Except.error QueryError.notParsedYet) ∧
    (rs.length = opts.length → optIndex opts name = none →
      gotOption opts rs name = Except.error (QueryError.unknownOptionName name) ∧
      optionValue opts rs name = Except.error (QueryError.unknownOptionName name)) ∧
    (∀ i, rs.length = opts.length → optIndex opts name = some i →
      gotOption opts rs name = Except.ok ((rs.getD i default).present) ∧
      optionValue opts rs name = Except.ok ((rs.getD i default).value)) := by
  refine ⟨?_, ?_, ?_⟩
  · intro h
    simp [gotOption, optionValue, h]
  · intro h hidx
    simp [gotOption, optionValue, h, hidx]
  · intro i h hidx
    simp [gotOption, optionValue, h, hidx]

/-- C7, witness: the three behaviours at concrete stores. -/
theorem claim7_witness :
    gotOption
        [{ shortName := "a", longName := "long-a", defaultVal := "", helpMessage := ""
           type := OptType.value, optional := true }] [] "a" =
      Except.error QueryError.notParsedYet ∧
    gotOption
        [{ shortName := "a", longName := "long-a", defaultVal := "", helpMessage := ""
           type := OptType.value, optional := true }] [{ value := "v", present := true }] "zz" =
      Except.error (QueryError.unknownOptionName "zz") ∧
    gotOption
        [{ shortName := "a", longName := "long-a", defaultVal := "", helpMessage := ""
           type := OptType.value, optional := true }] [{ value := "v", present := true }] "a" =
      Except.ok true := by
  refine ⟨((claim7_theorem _ _ _).1 (by decide)).1, ((claim7_theorem _ _ _).2.1 (by decide)
    (by decide)).1, ((claim7_theorem _ _ _).2.2 0 (by decide) (by decide)).1⟩

/-- C9: a second `parse` on the same instance is oblivious to the first: the
member state produced by parsing `y` after parsing `x` equals the state of
parsing `y` alone, and a parse of an empty stream shows the reset — the
result store holds each option default with no presence flag and the
positional list is empty. -/
theorem claim9_theorem (s : OptParser) (x y : List String) :
    parse (parse s x).1 y = parse s y ∧
    (parse s []).1.result_ = resetResults s.opt_ ∧
    (parse s []).1.arg_ = [] :=
  ⟨rfl, rfl, rfl⟩

/-- C1, counterexample: against the empty registry, parsing the single token
-z emits the unknown-option diagnostic and keeps it off the positional list,
yet `parse` returns `true`, because the unknown-option branch of the source
never clears `isCorrect`. -/
theorem claim1_counterexample :
    (parse ⟨[], [], []⟩ ["-z"]).2.1 = true ∧
    (parse ⟨[], [], []⟩ ["-z"]).2.2 = [Warning.unknownOption "-z"] ∧
    (parse ⟨[], [], []⟩ ["-z"]).1.arg_ = [] := by
  refine ⟨by decide, by decide, by decide⟩

/-- C1, amended: `parse` returns `true` iff no missing-value and no
missing-mandatory-option warning was emitted; an unknown-option warning is
emitted and the token is not added to the positional sequence, but it leaves
the return value untouched, so parsing the single unknown token -z returns
`true` whenever every registered option is optional. -/
theorem claim1_amended :
    (∀ (s : OptParser) (args : List String),
      ((parse s args).2.1 = true ↔
        ∀ w ∈ (parse s args).2.2, fatalWarning w = false)) ∧
    (∀ s : OptParser, (∀ p ∈ s.opt_, p.shortName ≠ "z") →
      (∀ p ∈ s.opt_, p.optional = true) →
      parse s ["-z"] =
        ({ s with result_ := resetResults s.opt_, arg_ := [] }, true,
          [Warning.unknownOption "-z"])) := by
  constructor
  · intro s args
    have h := parseCore_isCorrect s.opt_ args
    show (parseCore s.opt_ args).isCorrect = true ↔
      ∀ w ∈ (parseCore s.opt_ args).warnings, fatalWarning w = false
    rw [h]
    simp [List.any_eq_false]
  · intro s hz hopt
    have hc : classify "-z" = Token.shortOpt "z" none := rfl
    have hfind : findOpt (fun p => p.shortName == "z") s.opt_ = none := by
      refine findOpt_eq_none _ _ ?_
      intro q hq
      simpa using hz q hq
    have hmw : mandatoryWarnings s.opt_ (resetResults s.opt_) = [] :=
      mandatoryWarnings_all_optional _ _ hopt
    simp [parse, parseCore, parseToken, hc, lookupBranch, dropExpect, hfind, hmw]

/-- C1, witness for the amended claim: a registry with one optional trigger
option, parsing the unknown token -z. -/
theorem claim1_witness :
    parse
        ⟨[{ shortName := "b", longName := "long-b", defaultVal := "", helpMessage := ""
            type := OptType.trigger, optional := true }], [], []⟩ ["-z"] =
      (⟨[{ shortName := "b", longName := "long-b", defaultVal := "", helpMessage := ""
           type := OptType.trigger, optional := true }],
        resetResults
          [{ shortName := "b", longName := "long-b", defaultVal := "", helpMessage := ""
             type := OptType.trigger, optional := true }], []⟩, true,
        [Warning.unknownOption "-z"]) :=
  claim1_amended.2 _ (by decide) (by decide)

theorem render_foldl_general (opts : List OptPar) (acc : String) :
    opts.foldl
      (fun acc o =>
        acc ++ leftPad 20 (optName o) ++ ": " ++ o.helpMessage ++
          (if o.defaultVal = "" then "" else " (default: " ++ o.defaultVal ++ ")") ++ "\n")
      acc =
    acc ++
      (opts.map (fun o =>
        leftPad 20 (optName o) ++ ": " ++ o.helpMessage ++
          (if o.defaultVal = "" then "" else " (default: " ++ o.defaultVal ++ ")") ++
          "\n")).foldr (· ++ ·) "" := by
  induction opts generalizing acc with
  | nil =>
    apply String.ext
    simp [String.data_append]
  | cons o os ih =>
    simp only [List.foldl_cons, List.map_cons, List.foldr_cons]
    rw [ih]
    apply String.ext
    simp [String.data_append]

/-- C8, counterexample: a Value option registered with only a short name is
rendered without any trailing equals sign, so the trailing equals sign does
not appear exactly on the Value options. -/
theorem claim8_counterexample :
    optName
        { shortName := "a", longName := "", defaultVal := "", helpMessage := "h"
          type := OptType.value, optional := true } = "-a" ∧
    ({ shortName := "a", longName := "", defaultVal := "", helpMessage := "h"
       type := OptType.value, optional := true } : OptPar).type = OptType.value ∧
    (("-a" : String).data.contains '=') = false := by
  refine ⟨by decide, rfl, by decide⟩

/-- C8, amended: `render` writes exactly one line per registered option in
registration order, each line being the name form right-justified to width
20, a colon and space, the help text, and a default clause omitted exactly
when the default value is empty; the name form carries the trailing equals
sign exactly when the option is a Value option that has a long name. -/
theorem claim8_amended :
    (∀ opts : List OptPar,
      render opts =
        (opts.map (fun o =>
          leftPad 20 (optName o) ++ ": " ++ o.helpMessage ++
            (if o.defaultVal = "" then "" else " (default: " ++ o.defaultVal ++ ")") ++
            "\n")).foldr (· ++ ·) "") ∧
    (∀ o : OptPar,
      optName o =
        (if o.shortName = "" then ""
         else "-" ++ o.shortName ++ if o.longName = "" then "" else "/") ++
        (if o.longName = "" then ""
         else "--" ++ o.longName ++ if o.type = OptType.value then "=" else "")) := by
  constructor
  · intro opts
    have h := render_foldl_general opts ""
    rw [render, h]
    apply String.ext
    simp [String.data_append]
  · intro o
    by_cases hs : o.shortName = "" <;> by_cases hl : o.longName = "" <;>
      by_cases ht : o.type = OptType.value <;>
      · apply String.ext
        simp [optName, hs, hl, ht, String.data_append, beq_iff_eq]

/-- C2, counterexample: the token consisting of dash, dash, the name
`output` and a final equals sign does contain an equals sign right after the
maximal name run, yet it is classified with no inline value (the optional
final group of the pattern cannot match an empty remainder); conversely a
token such as the one made of dash, dash, `a`, and the text starting with
an exclamation mark contains no equals sign at all, yet an inline value is
captured. -/
theorem claim2_counterexample :
    classify "--output=" = Token.longOpt "output" none ∧
    ("--output=" : String).data = '-' :: '-' :: ("output".data ++ ['=']) ∧
    classify "--a!b" = Token.longOpt "a" (some "!b") := by
  refine ⟨by decide, by decide, by decide⟩

/-- C2, amended: for every raw token classified as a long option, the name
is the maximal run of name characters after the leading double dash and is
nonempty; the inline value is absent when nothing follows the name or when
exactly one equals sign follows it, is the text after the equals sign when
that text is nonempty, and is the whole remainder after the name when that
remainder does not start with an equals sign; a bare long token such as
`--output` has no inline value. -/
theorem claim2_amended :
    (∀ (s : String) (n : String) (inl : Option String),
      classify s = Token.longOpt n inl →
      ∃ rest, s.data = '-' :: '-' :: rest ∧
        n.data = rest.takeWhile isNameChar ∧
        rest.takeWhile isNameChar ≠ [] ∧
        ((rest.dropWhile isNameChar = [] ∧ inl = none) ∨
         (rest.dropWhile isNameChar = ['='] ∧ inl = none) ∨
         (∃ t, rest.dropWhile isNameChar = '=' :: t ∧ t ≠ [] ∧
           inl = some (String.mk t)) ∨
         (∃ c t, rest.dropWhile isNameChar = c :: t ∧ c ≠ '=' ∧
           inl = some (String.mk (c :: t))))) ∧
    classify "--output" = Token.longOpt "output" none ∧
    classify "--output=foo" = Token.longOpt "output" (some "foo") := by
  refine ⟨?_, by decide, by decide⟩
  intro s n inl h
  unfold classify at h
  rw [classifyChars.eq_def] at h
  split at h
  · rename_i c rest heq
    by_cases ha : c.isAlpha
    · rw [if_pos ha] at h
      split at h <;> simp at h
      split at h <;> simp at h
    · rw [if_neg ha] at h
      by_cases hc : c = '-'
      · rw [if_pos hc] at h
        subst hc
        by_cases hn : rest.takeWhile isNameChar = []
        · rw [if_pos hn] at h
          simp at h
        · rw [if_neg hn] at h
          refine ⟨rest, heq, ?_⟩
          split at h
          case _ hdrop =>
            simp only [Token.longOpt.injEq] at h
            refine ⟨by rw [← h.1], hn, Or.inl ⟨hdrop, h.2.symm⟩⟩
          case _ c2 t hdrop =>
            by_cases he : c2 = '='
            · subst he
              by_cases hte : t = []
              · rw [if_pos rfl, if_pos hte] at h
                subst hte
                simp only [Token.longOpt.injEq] at h
                exact ⟨by rw [← h.1], hn, Or.inr (Or.inl ⟨hdrop, h.2.symm⟩)⟩
              · rw [if_pos rfl, if_neg hte] at h
                split at h
                · simp only [Token.longOpt.injEq] at h
                  exact ⟨by rw [← h.1], hn,
                    Or.inr (Or.inr (Or.inl ⟨t, hdrop, hte, h.2.symm⟩))⟩
                · exact Token.noConfusion h
            · rw [if_neg he] at h
              split at h
              · simp only [Token.longOpt.injEq] at h
                exact ⟨by rw [← h.1], hn,
                  Or.inr (Or.inr (Or.inr ⟨c2, t, hdrop, he, h.2.symm⟩))⟩
              · exact Token.noConfusion h
      · rw [if_neg hc] at h
        simp at h
  · simp at h

/-- C2, witness for the amended claim at the token made of dash, dash,
`output`, equals sign, `foo`. -/
theorem claim2_witness :
    ∃ rest, ("--output=foo" : String).data = '-' :: '-' :: rest ∧
      ("output" : String).data = rest.takeWhile isNameChar ∧
      rest.takeWhile isNameChar ≠ [] ∧
      ((rest.dropWhile isNameChar = [] ∧ (some "foo" : Option String) = none) ∨
       (rest.dropWhile isNameChar = ['='] ∧ (some "foo" : Option String) = none) ∨
       (∃ t, rest.dropWhile isNameChar = '=' :: t ∧ t ≠ [] ∧
         (some "foo" : Option String) = some (String.mk t)) ∨
       (∃ c t, rest.dropWhile isNameChar = c :: t ∧ c ≠ '=' ∧
         (some "foo" : Option String) = some (String.mk (c :: t)))) :=
  claim2_amended.1 "--output=foo" "output" (some "foo") (by decide)

/-! Computation lemmas for parses that start with the short token -a against
a registry of the shape `pre ++ aOpt :: post`, where no option of `pre`
carries the short name `a` and `aOpt` is a value option with short name
`a`. -/

theorem parseCore_result (opts : List OptPar) (args : List String) :
    (parseCore opts args).result_ =
      (args.foldl (parseToken opts)
        { result_ := resetResults opts, arg_ := [], warnings := [], isCorrect := true
          expectVal := none }).result_ := by
  simp only [parseCore]
  cases he : (args.foldl (parseToken opts)
      { result_ := resetResults opts, arg_ := [], warnings := [], isCorrect := true
        expectVal := none }).expectVal <;>
    simp [he]

theorem parseToken_shortA (pre post : List OptPar) (aOpt : OptPar) (st : ParseState)
    (hpre : ∀ p ∈ pre, p.shortName ≠ "a") (ha : aOpt.shortName = "a")
    (hv : aOpt.type = OptType.value) (he : st.expectVal = none)
    (hres : st.result_ = resetResults (pre ++ aOpt :: post)) :
    parseToken (pre ++ aOpt :: post) st "-a" =
      { st with
        result_ := resetResults pre ++
          { value := aOpt.defaultVal, present := true } :: resetResults post
        expectVal := some pre.length } := by
  have hc : classify "-a" = Token.shortOpt "a" none := rfl
  have hfind : findOpt (fun p => p.shortName == "a") (pre ++ aOpt :: post) =
      some pre.length := by
    refine findOpt_append_mid _ pre aOpt post ?_ (by simp [ha])
    intro q hq
    simpa using hpre q hq
  have hget : (pre ++ aOpt :: post).getD pre.length default = aOpt :=
    getD_append_mid pre aOpt post default
  simp only [parseToken, hc, lookupBranch, dropExpect, he, hfind, bindOpt, hget, hv]
  rw [hres]
  rw [show resetResults (pre ++ aOpt :: post) =
    resetResults pre ++ { value := aOpt.defaultVal, present := false } :: resetResults post
    from by simp [resetResults]]
  rw [show pre.length = (resetResults pre).length from (resetResults_length pre).symm]
  rw [modifyAt_append_mid]

theorem lookupBranch_getD (opts : List OptPar) (st : ParseState) (tok : String)
    (sel : OptPar → Bool) (inl : Option String) (i : Nat) (d : OptRes)
    (hsel : ∀ j, findOpt sel opts = some j → j ≠ i) :
    (lookupBranch opts st tok sel inl).result_.getD i d = st.result_.getD i d := by
  simp only [lookupBranch]
  cases hf : findOpt sel opts with
  | none => simp [dropExpect_result]
  | some j =>
    rw [bindOpt_getD_ne opts _ i j inl d (fun hij => (hsel j hf) hij.symm)]
    rw [dropExpect_result]

theorem parseToken_getD_preserved (opts : List OptPar) (st : ParseState) (tok : String)
    (i : Nat) (d : OptRes)
    (hshort : ∀ m minl, classify tok = Token.shortOpt m minl →
      ∀ j, findOpt (fun p => p.shortName == m) opts = some j → j ≠ i)
    (hlong : ∀ m minl, classify tok = Token.longOpt m minl →
      ∀ j, findOpt (fun p => p.longName == m) opts = some j → j ≠ i)
    (hplain : classify tok ≠ Token.plain) :
    (parseToken opts st tok).result_.getD i d = st.result_.getD i d := by
  cases hct : classify tok with
  | plain => exact absurd hct hplain
  | shortOpt m minl =>
    simp only [parseToken, hct]
    exact lookupBranch_getD _ _ _ _ _ _ _ (hshort m minl hct)
  | longOpt m minl =>
    simp only [parseToken, hct]
    exact lookupBranch_getD _ _ _ _ _ _ _ (hlong m minl hct)

/-- C5: against any registry containing a Value option with short name `a`
and long name `long-a`, where no earlier registry entry uses either of those
names, parsing the single token carrying the inline value and parsing the
two tokens carrying the deferred value produce identical parser states,
return values and diagnostics. -/
theorem claim5_theorem (pre post : List OptPar) (aOpt : OptPar) (r0 : List OptRes)
    (a0 : List String) (hs : aOpt.shortName = "a") (hl : aOpt.longName = "long-a")
    (hv : aOpt.type = OptType.value)
    (hpre : ∀ p ∈ pre, p.shortName ≠ "a" ∧ p.longName ≠ "long-a") :
    parse ⟨pre ++ aOpt :: post, r0, a0⟩ ["--long-a=foo"] =
      parse ⟨pre ++ aOpt :: post, r0, a0⟩ ["-a", "foo"] := by
  have hcL : classify "--long-a=foo" = Token.longOpt "long-a" (some "foo") := rfl
  have hcF : classify "foo" = Token.plain := rfl
  have hfindL : findOpt (fun p => p.longName == "long-a") (pre ++ aOpt :: post) =
      some pre.length := by
    refine findOpt_append_mid _ pre aOpt post ?_ (by simp [hl])
    intro q hq
    simpa using (hpre q hq).2
  have hget : (pre ++ aOpt :: post).getD pre.length default = aOpt :=
    getD_append_mid pre aOpt post default
  have hstep := parseToken_shortA pre post aOpt
    { result_ := resetResults (pre ++ aOpt :: post), arg_ := [], warnings := []
      isCorrect := true, expectVal := none } (fun p hp => (hpre p hp).1) hs hv rfl rfl
  have hreset : resetResults (pre ++ aOpt :: post) =
      resetResults pre ++
        { value := aOpt.defaultVal, present := false } :: resetResults post := by
    simp [resetResults]
  have hlen : pre.length = (resetResults pre).length := (resetResults_length pre).symm
  have hstepL : parseToken (pre ++ aOpt :: post)
      { result_ := resetResults (pre ++ aOpt :: post), arg_ := [], warnings := []
        isCorrect := true, expectVal := none } "--long-a=foo" =
      { result_ := resetResults pre ++
          { value := "foo", present := true } :: resetResults post
        arg_ := [], warnings := [], isCorrect := true, expectVal := none } := by
    simp only [parseToken, hcL, lookupBranch, dropExpect, hfindL, bindOpt, hget, hv]
    rw [hreset, hlen, modifyAt_append_mid, modifyAt_append_mid]
  have hstepF : parseToken (pre ++ aOpt :: post)
      { result_ := resetResults pre ++
          { value := aOpt.defaultVal, present := true } :: resetResults post
        arg_ := [], warnings := [], isCorrect := true, expectVal := some pre.length } "foo" =
      { result_ := resetResults pre ++
          { value := "foo", present := true } :: resetResults post
        arg_ := [], warnings := [], isCorrect := true, expectVal := none } := by
    simp only [parseToken, hcF]
    rw [hlen, modifyAt_append_mid]
  simp only [parse, parseCore, List.foldl_cons, List.foldl_nil, hstepL, hstep, hstepF]

/-- C5, witness at a concrete one-option registry with default value `dv`. -/
theorem claim5_witness :
    parse
        ⟨[{ shortName := "a", longName := "long-a", defaultVal := "dv", helpMessage := ""
            type := OptType.value, optional := true }], [], []⟩ ["--long-a=foo"] =
      parse
        ⟨[{ shortName := "a", longName := "long-a", defaultVal := "dv", helpMessage := ""
            type := OptType.value, optional := true }], [], []⟩ ["-a", "foo"] :=
  claim5_theorem [] [] _ [] [] rfl rfl rfl (by simp)

/-- C6: against any registry containing a Value option with short name `a`
(no earlier entry using that short name), parsing the single token -a leaves
the deferred-value expectation dangling at end of stream: the end-of-stream
missing-value warning for that option is emitted, `parse` returns `false`,
and the option keeps its pre-parse default value (while being marked
present). -/
theorem claim6_theorem (pre post : List OptPar) (aOpt : OptPar) (r0 : List OptRes)
    (a0 : List String) (hpre : ∀ p ∈ pre, p.shortName ≠ "a")
    (ha : aOpt.shortName = "a") (hv : aOpt.type = OptType.value) :
    (parse ⟨pre ++ aOpt :: post, r0, a0⟩ ["-a"]).2.1 = false ∧
    Warning.expectedValue aOpt ∈ (parse ⟨pre ++ aOpt :: post, r0, a0⟩ ["-a"]).2.2 ∧
    (parse ⟨pre ++ aOpt :: post, r0, a0⟩ ["-a"]).1.result_ =
      resetResults pre ++
        { value := aOpt.defaultVal, present := true } :: resetResults post := by
  have hstep := parseToken_shortA pre post aOpt
    { result_ := resetResults (pre ++ aOpt :: post), arg_ := [], warnings := []
      isCorrect := true, expectVal := none } hpre ha hv rfl rfl
  have hget : (pre ++ aOpt :: post).getD pre.length default = aOpt :=
    getD_append_mid pre aOpt post default
  simp only [parse, parseCore, List.foldl_cons, List.foldl_nil, hstep, hget]
  simp

/-- C6, witness at a concrete one-option registry with default value `dv`. -/
theorem claim6_witness :
    (parse
        ⟨[{ shortName := "a", longName := "long-a", defaultVal := "dv", helpMessage := ""
            type := OptType.value, optional := true }], [], []⟩ ["-a"]).2.1 = false ∧
    Warning.expectedValue
        { shortName := "a", longName := "long-a", defaultVal := "dv", helpMessage := ""
          type := OptType.value, optional := true } ∈
      (parse
        ⟨[{ shortName := "a", longName := "long-a", defaultVal := "dv", helpMessage := ""
            type := OptType.value, optional := true }], [], []⟩ ["-a"]).2.2 ∧
    (parse
        ⟨[{ shortName := "a", longName := "long-a", defaultVal := "dv", helpMessage := ""
            type := OptType.value, optional := true }], [], []⟩ ["-a"]).1.result_ =
      resetResults [] ++ { value := "dv", present := true } :: resetResults [] :=
  claim6_theorem [] [] _ [] [] (by simp) rfl rfl

/-- C10: a Value option with short name `a` that is matched without an
inline value and whose deferred value is never supplied — the stream either
ends right after the option token or continues with another option-shaped
token that does not resolve to this option — is nonetheless marked present:
after the parse the presence query answers `true` while the value query
still answers the registration default. -/
theorem claim10_theorem (pre post : List OptPar) (aOpt : OptPar) (args : List String)
    (r0 : List OptRes) (a0 : List String)
    (hpre : ∀ p ∈ pre, p.shortName ≠ "a" ∧ p.longName ≠ "a")
    (ha : aOpt.shortName = "a") (hv : aOpt.type = OptType.value)
    (hargs : args = ["-a"] ∨ ∃ tok, args = ["-a", tok] ∧
      (match classify tok with
       | Token.shortOpt m _ => m ≠ "a"
       | Token.longOpt m _ => m ≠ aOpt.longName
       | Token.plain => False)) :
    gotOption (pre ++ aOpt :: post)
        (parse ⟨pre ++ aOpt :: post, r0, a0⟩ args).1.result_ "a" = Except.ok true ∧
    optionValue (pre ++ aOpt :: post)
        (parse ⟨pre ++ aOpt :: post, r0, a0⟩ args).1.result_ "a" =
      Except.ok aOpt.defaultVal := by
  have hstep := parseToken_shortA pre post aOpt
    { result_ := resetResults (pre ++ aOpt :: post), arg_ := [], warnings := []
      isCorrect := true, expectVal := none } (fun p hp => (hpre p hp).1) ha hv rfl rfl
  have hidx : optIndex (pre ++ aOpt :: post) "a" = some pre.length := by
    refine findOpt_append_mid _ pre aOpt post ?_ (by simp [ha])
    intro q hq
    simp [(hpre q hq).1, (hpre q hq).2]
  have hlenR : (parseCore (pre ++ aOpt :: post) args).result_.length =
      (pre ++ aOpt :: post).length := parseCore_result_length _ args
  have hR : (parseCore (pre ++ aOpt :: post) args).result_.getD pre.length default =
      { value := aOpt.defaultVal, present := true } := by
    rcases hargs with rfl | ⟨tok, rfl, hmatch⟩
    · rw [parseCore_result]
      simp only [List.foldl_cons, List.foldl_nil, hstep]
      rw [show pre.length = (resetResults pre).length from (resetResults_length pre).symm]
      exact getD_append_mid _ _ _ _
    · rw [parseCore_result]
      simp only [List.foldl_cons, List.foldl_nil, hstep]
      rw [parseToken_getD_preserved]
      · rw [show pre.length = (resetResults pre).length from (resetResults_length pre).symm]
        exact getD_append_mid _ _ _ _
      · intro m minl hct
        simp only [hct] at hmatch
        refine findOpt_append_mid_ne _ pre aOpt post ?_
        have hm : ("a" == m) = false := beq_eq_false_iff_ne.mpr (Ne.symm hmatch)
        simp [ha, hm]
      · intro m minl hct
        simp only [hct] at hmatch
        refine findOpt_append_mid_ne _ pre aOpt post ?_
        have hm : (aOpt.longName == m) = false := beq_eq_false_iff_ne.mpr (Ne.symm hmatch)
        simp [hm]
      · intro hct
        simp only [hct] at hmatch
  constructor
  · have hne : ¬ ((parseCore (pre ++ aOpt :: post) args).result_.length ≠
        (pre ++ aOpt :: post).length) := by simp [hlenR]
    simp only [parse, gotOption, hne, if_false, hidx, hR]
  · have hne : ¬ ((parseCore (pre ++ aOpt :: post) args).result_.length ≠
        (pre ++ aOpt :: post).length) := by simp [hlenR]
    simp only [parse, optionValue, hne, if_false, hidx, hR]

/-- C10, witness: the end-of-stream scenario at a concrete one-option
registry with default value `dv`. -/
theorem claim10_witness :
    gotOption
        [{ shortName := "a", longName := "long-a", defaultVal := "dv", helpMessage := ""
           type := OptType.value, optional := true }]
        (parse
          ⟨[{ shortName := "a", longName := "long-a", defaultVal := "dv", helpMessage := ""
              type := OptType.value, optional := true }], [], []⟩ ["-a"]).1.result_ "a" =
      Except.ok true ∧
    optionValue
        [{ shortName := "a", longName := "long-a", defaultVal := "dv", helpMessage := ""
           type := OptType.value, optional := true }]
        (parse
          ⟨[{ shortName := "a", longName := "long-a", defaultVal := "dv", helpMessage := ""
              type := OptType.value, optional := true }], [], []⟩ ["-a"]).1.result_ "a" =
      Except.ok "dv" :=
  claim10_theorem [] [] _ ["-a"] [] [] (by simp) rfl rfl (Or.inl rfl)

end OptP
